import Mathlib

/-!
Verification of the shielded-asset core of the private-tokenised-bonds
wallet (Rust sources under `src/wallet/src/`) against its natural-language
specification.

Shallow embedding conventions:

* The BN254 scalar field `Fr` of the `poseidon_rs` crate is represented by
  canonical natural numbers below the modulus `p`; `Fr::from_str` applied to
  the decimal string of an unsigned integer performs modular reduction, which
  `natToFr` reproduces (the spec's FieldCodec is "deterministic, lossless
  within field range").
* The Poseidon hash (external crate `poseidon_rs`), Keccak256 (external crate
  `sha3`) and the X25519 operations (external crate `x25519_dalek`) are not
  part of this repository; every definition that uses one takes it as an
  explicit function parameter, so all theorems hold for the real primitives.
* Rust panics (`unwrap`/`expect` on `None`) are modelled by `Option`/`Except`
  results: `none` is the panic.
* Byte arrays `[u8; 32]` are functions `Fin 32 → Fin 256`.
-/

namespace PrivateBonds

/-- The BN254 scalar-field modulus of `poseidon_rs::Fr`
(`PrimeFieldModulus` in that crate). -/
def p : Nat := 21888242871839275222246405745257275088548364400416034343698204186575808495617

/-- A field element in canonical representation. -/
abbrev F := Nat

/-- `Fr::from_str` on the decimal string of an unsigned integer: reduction of
the integer into the field.  (`keys.rs`, `notes.rs` convert every `u64` via
`Fr::from_str(&n.to_string())`.) -/
def natToFr (n : Nat) : F := n % p

/-- A byte, as produced by Keccak256 / stored in `[u8; 32]` arrays. -/
abbrev Byte := Fin 256

/-- A 32-byte array `[u8; 32]`. -/
abbrev B32 := Fin 32 → Byte

/-! ## Merkle tree (`src/wallet/src/merkle.rs`) -/

/-- `SiblingSide` from `merkle.rs`. -/
inductive SiblingSide
  | Left
  | Right
deriving DecidableEq, Repr

/-- `Node` from `merkle.rs`: one proof step. -/
structure Node where
  sibling : F
  sibling_side : SiblingSide
deriving DecidableEq, Repr

/-- `MerkleTree` from `merkle.rs`. -/
structure MerkleTree where
  levels : List (List F)
  root : F
deriving DecidableEq, Repr

/-- `hash_leaf` from `merkle.rs`: Poseidon over the given field elements.
The Poseidon permutation itself lives in the external `poseidon_rs` crate and
is passed in as `hash`. -/
def hash_leaf (hash : List F → F) (input : List F) : F := hash input

/-- One iteration of the level loop in `build_tree_levels` (`merkle.rs`
lines 95-107): adjacent nodes are paired with `hash_leaf`; when the step
lands on the last node of an odd-length level (`i == current_tree.len() - 1`)
that node is hashed with a duplicate of itself. -/
def pairLevel (hash : List F → F) : List F → List F
  | [] => []
  | [a] => [hash_leaf hash [a, a]]
  | a :: b :: rest => hash_leaf hash [a, b] :: pairLevel hash rest

/-- Each level pairing halves the node count, rounding up. -/
theorem pairLevel_length (hash : List F → F) :
    ∀ l : List F, (pairLevel hash l).length = (l.length + 1) / 2
  | [] => by simp [pairLevel]
  | [_] => by simp [pairLevel]
  | _ :: _ :: rest => by
      simp [pairLevel, pairLevel_length hash rest]
      omega

/-- The `while current_tree.len() > 1` loop of `build_tree_levels`
(`merkle.rs` lines 93-110): the accumulated `levels` list starting from the
current level. -/
def build_levels_from (hash : List F → F) (cur : List F) : List (List F) :=
  if cur.length ≤ 1 then [cur]
  else cur :: build_levels_from hash (pairLevel hash cur)
termination_by cur.length
decreasing_by
  simp [pairLevel_length]
  omega

/-- `build_tree_levels` from `merkle.rs`: each leaf is pre-hashed once with
`hash_leaf([c])`, then levels are built pairwise bottom-up. -/
def build_tree_levels (hash : List F → F) (leaves : List F) : List (List F) :=
  build_levels_from hash (leaves.map (fun c => hash_leaf hash [c]))

/-- `MerkleTree::new` from `merkle.rs`: the root is
`levels.last().unwrap().first().unwrap()`; the second `unwrap` panics
(modelled by `none`) when the top level is empty, which happens exactly for
an empty leaf sequence. -/
def MerkleTree.new (hash : List F → F) (leaves : List F) : Option MerkleTree :=
  let levels := build_tree_levels hash leaves
  match levels.getLast? with
  | none => none
  | some lastLevel =>
    match lastLevel.head? with
    | none => none
    | some r => some ⟨levels, r⟩

/-- The body of the proof loop in `MerkleTree::generate_proof` (`merkle.rs`
lines 35-57) at one level: the sibling index is `i + 1` for even `i` and
`i - 1` for odd `i`; if it is inside the level the sibling is taken there
(side `Right` for even `i`, `Left` for odd `i`); otherwise the node at `i`
itself is used with side `Right` (the duplicated-last-node case).  The
out-of-bounds indexing panic is modelled by `none`. -/
def proof_step (lvl : List F) (i : Nat) : Option Node :=
  let sib := if i % 2 = 0 then i + 1 else i - 1
  if h : sib < lvl.length then
    some ⟨lvl.get ⟨sib, h⟩, if i % 2 = 0 then SiblingSide.Right else SiblingSide.Left⟩
  else
    (lvl.get? i).map (fun v => ⟨v, SiblingSide.Right⟩)

/-- The proof loop of `MerkleTree::generate_proof` over the levels below the
root (`for level in 0..levels.len() - 1`), halving the index at each level. -/
def proof_levels (lvls : List (List F)) (i : Nat) : Option (List Node) :=
  match lvls with
  | [] => some []
  | lvl :: rest =>
    match proof_step lvl i, proof_levels rest (i / 2) with
    | some n, some ns => some (n :: ns)
    | _, _ => none

/-- `MerkleTree::generate_proof` from `merkle.rs`: walk every level except
the top one. -/
def MerkleTree.generate_proof (t : MerkleTree) (index : Nat) : Option (List Node) :=
  proof_levels t.levels.dropLast index

/-- The fold step of `MerkleTree::verify_proof` (`merkle.rs` lines 68-77):
a `Right` sibling combines as `hash_leaf([current, sibling])`, a `Left`
sibling as `hash_leaf([sibling, current])`. -/
def combineStep (hash : List F → F) (cur : F) (n : Node) : F :=
  match n.sibling_side with
  | SiblingSide.Right => hash_leaf hash [cur, n.sibling]
  | SiblingSide.Left => hash_leaf hash [n.sibling, cur]

/-- `MerkleTree::verify_proof` from `merkle.rs`: recompute
`hash_leaf(leaf_value)`, fold the proof, compare with the stored root. -/
def MerkleTree.verify_proof (hash : List F → F) (t : MerkleTree)
    (leaf_value : List F) (proof : List Node) : Bool :=
  (proof.foldl (combineStep hash) (hash_leaf hash leaf_value)) == t.root

/-- Index lemma for `pairLevel`: position `k` of the paired level is the hash
of positions `2k` and `2k + 1` of the level below, when both exist. -/
theorem pairLevel_get?_even (hash : List F → F) :
    ∀ (l : List F) (k : Nat) (a b : F),
      l.get? (2 * k) = some a → l.get? (2 * k + 1) = some b →
      (pairLevel hash l).get? k = some (hash [a, b])
  | [], k, a, b, ha, _ => by simp at ha
  | [x], k, a, b, ha, hb => by
      match k with
      | 0 => simp at hb
      | k + 1 =>
        have : 2 * (k + 1) = (2 * k + 1) + 1 := by omega
        rw [this] at ha
        simp at ha
  | x :: y :: rest, 0, a, b, ha, hb => by
      simp at ha hb
      subst ha
      subst hb
      simp [pairLevel, hash_leaf]
  | x :: y :: rest, k + 1, a, b, ha, hb => by
      have h2 : 2 * (k + 1) = (2 * k) + 1 + 1 := by omega
      have h3 : 2 * (k + 1) + 1 = (2 * k + 1) + 1 + 1 := by omega
      rw [h2] at ha
      rw [h3] at hb
      simp only [List.get?_cons_succ] at ha hb
      simpa [pairLevel, hash_leaf] using pairLevel_get?_even hash rest k a b ha hb

/-- Index lemma for `pairLevel`, duplicated-last-node case: when position `2k`
is the last node of an odd-length level it is hashed with itself. -/
theorem pairLevel_get?_last (hash : List F → F) :
    ∀ (l : List F) (k : Nat) (a : F),
      l.get? (2 * k) = some a → l.get? (2 * k + 1) = none →
      (pairLevel hash l).get? k = some (hash [a, a])
  | [], k, a, ha, _ => by simp at ha
  | [x], k, a, ha, hb => by
      match k with
      | 0 =>
        simp at ha
        subst ha
        simp [pairLevel, hash_leaf]
      | k + 1 =>
        have : 2 * (k + 1) = (2 * k + 1) + 1 := by omega
        rw [this] at ha
        simp at ha
  | x :: y :: rest, 0, a, ha, hb => by simp at hb
  | x :: y :: rest, k + 1, a, ha, hb => by
      have h2 : 2 * (k + 1) = (2 * k) + 1 + 1 := by omega
      have h3 : 2 * (k + 1) + 1 = (2 * k + 1) + 1 + 1 := by omega
      rw [h2] at ha
      rw [h3] at hb
      simp only [List.get?_cons_succ] at ha hb
      simpa [pairLevel, hash_leaf] using pairLevel_get?_last hash rest k a ha hb

/-- The level list produced by the build loop is never empty. -/
theorem build_levels_from_ne_nil (hash : List F → F) (cur : List F) :
    build_levels_from hash cur ≠ [] := by
  rw [build_levels_from]
  split <;> simp

/-- One proof step succeeds at every in-range index and reproduces exactly the
parent node that the build loop computes at index `i / 2` of the next level —
including the self-pairing of the duplicated last node. -/
theorem proof_step_combine (hash : List F → F) (cur : List F) (i : Nat)
    (hi : i < cur.length) :
    ∃ n, proof_step cur i = some n ∧
      (pairLevel hash cur).get? (i / 2) =
        some (combineStep hash (cur.get ⟨i, hi⟩) n) := by
  rcases Nat.even_or_odd i with ⟨k, hk⟩ | ⟨k, hk⟩
  · -- i = 2 * k
    have hmod : i % 2 = 0 := by omega
    have hdiv : i / 2 = k := by omega
    by_cases hsib : i + 1 < cur.length
    · refine ⟨⟨cur.get ⟨i + 1, hsib⟩, SiblingSide.Right⟩, ?_, ?_⟩
      · simp [proof_step, hmod, hsib]
      · rw [hdiv]
        have ha : cur.get? (2 * k) = some (cur.get ⟨i, hi⟩) := by
          have h2ki : 2 * k = i := by omega
          rw [h2ki]
          exact List.get?_eq_get hi
        have hb : cur.get? (2 * k + 1) = some (cur.get ⟨i + 1, hsib⟩) := by
          have : 2 * k + 1 = i + 1 := by omega
          rw [this]
          exact List.get?_eq_get hsib
        rw [pairLevel_get?_even hash cur k _ _ ha hb]
        simp [combineStep, hash_leaf]
    · refine ⟨⟨cur.get ⟨i, hi⟩, SiblingSide.Right⟩, ?_, ?_⟩
      · have : ¬ (i + 1 < cur.length) := hsib
        simp [proof_step, hmod, this, List.get?_eq_get hi]
      · rw [hdiv]
        have ha : cur.get? (2 * k) = some (cur.get ⟨i, hi⟩) := by
          have h2ki : 2 * k = i := by omega
          rw [h2ki]
          exact List.get?_eq_get hi
        have hb : cur.get? (2 * k + 1) = none := by
          rw [List.get?_eq_none]
          omega
        rw [pairLevel_get?_last hash cur k _ ha hb]
        simp [combineStep, hash_leaf]
  · -- i = 2 * k + 1
    have hmod : i % 2 = 1 := by omega
    have hdiv : i / 2 = k := by omega
    have hsib : i - 1 < cur.length := by omega
    refine ⟨⟨cur.get ⟨i - 1, hsib⟩, SiblingSide.Left⟩, ?_, ?_⟩
    · simp [proof_step, hmod, hsib]
    · rw [hdiv]
      have ha : cur.get? (2 * k) = some (cur.get ⟨i - 1, hsib⟩) := by
        have : 2 * k = i - 1 := by omega
        rw [this]
        exact List.get?_eq_get hsib
      have hb : cur.get? (2 * k + 1) = some (cur.get ⟨i, hi⟩) := by
        have : 2 * k + 1 = i := by omega
        rw [this]
        exact List.get?_eq_get hi
      rw [pairLevel_get?_even hash cur k _ _ ha hb]
      simp [combineStep, hash_leaf]

/-- Round-trip invariant of the level structure: starting from any nonempty
current level, the top level is a singleton `[r]`, proof generation succeeds
at every in-range index, and folding the generated proof from the indexed
node reproduces `r`. -/
theorem roundtrip_aux (hash : List F → F) (cur : List F) (i : Nat)
    (hi : i < cur.length) :
    ∃ r pf,
      (build_levels_from hash cur).getLast? = some [r] ∧
      proof_levels (build_levels_from hash cur).dropLast i = some pf ∧
      pf.foldl (combineStep hash) (cur.get ⟨i, hi⟩) = r := by
  by_cases hlen : cur.length ≤ 1
  · have h1 : cur.length = 1 := by omega
    obtain ⟨x, hx⟩ := List.length_eq_one.mp h1
    subst hx
    have hi0 : i = 0 := by omega
    subst hi0
    refine ⟨x, [], ?_, ?_, ?_⟩
    · rw [build_levels_from]
      simp
    · rw [build_levels_from]
      simp [proof_levels]
    · simp
  · have hnext : i / 2 < (pairLevel hash cur).length := by
      rw [pairLevel_length]
      omega
    obtain ⟨r, pf', hlast, hproof, hfold⟩ :=
      roundtrip_aux hash (pairLevel hash cur) (i / 2) hnext
    obtain ⟨n, hstep, hcomb⟩ := proof_step_combine hash cur i hi
    have hne := build_levels_from_ne_nil hash (pairLevel hash cur)
    obtain ⟨lvl0, rest0, hL⟩ := List.exists_cons_of_ne_nil hne
    have hunfold : build_levels_from hash cur =
        cur :: build_levels_from hash (pairLevel hash cur) := by
      rw [build_levels_from]
      simp [hlen]
    refine ⟨r, n :: pf', ?_, ?_, ?_⟩
    · rw [hunfold, hL, List.getLast?_cons_cons, ← hL]
      exact hlast
    · rw [hunfold, hL]
      have hdrop : (cur :: lvl0 :: rest0).dropLast =
          cur :: (lvl0 :: rest0).dropLast := by
        simp [List.dropLast]
      rw [hdrop]
      simp only [proof_levels]
      rw [hstep, ← hL, hproof]
    · have hval : combineStep hash (cur.get ⟨i, hi⟩) n =
          (pairLevel hash cur).get ⟨i / 2, hnext⟩ := by
        have := List.get?_eq_get hnext
        rw [this] at hcomb
        exact (Option.some_injective _ hcomb).symm
      simp only [List.foldl_cons]
      rw [hval]
      exact hfold
termination_by cur.length
decreasing_by
  simp [pairLevel_length]
  omega

/-- Dropping the head of a cons keeps the last element when the tail is
nonempty. -/
theorem getLast?_cons_of_ne_nil {α : Type} (a : α) {l : List α} (h : l ≠ []) :
    (a :: l).getLast? = l.getLast? := by
  obtain ⟨x, xs, rfl⟩ := List.exists_cons_of_ne_nil h
  exact List.getLast?_cons_cons

/-- When a level has odd length, its pairing ends with the hash of the last
node with a duplicate of itself. -/
theorem pairLevel_getLast? (hash : List F → F) :
    ∀ l : List F, l.length % 2 = 1 →
      (pairLevel hash l).getLast? = l.getLast?.map (fun a => hash_leaf hash [a, a])
  | [], hodd => by simp at hodd
  | [a], _ => by simp [pairLevel]
  | a :: b :: rest, hodd => by
      have hrodd : rest.length % 2 = 1 := by
        simp at hodd ⊢
        omega
      have hrne : rest ≠ [] := by
        intro h
        rw [h] at hrodd
        simp at hrodd
      have hpne : pairLevel hash rest ≠ [] := by
        intro h
        have := pairLevel_length hash rest
        rw [h] at this
        have hrlen : 0 < rest.length := List.length_pos.mpr hrne
        simp at this
        omega
      calc (pairLevel hash (a :: b :: rest)).getLast?
      _ = (hash_leaf hash [a, b] :: pairLevel hash rest).getLast? := by
            simp [pairLevel]
      _ = (pairLevel hash rest).getLast? := getLast?_cons_of_ne_nil _ hpne
      _ = rest.getLast?.map (fun a => hash_leaf hash [a, a]) :=
            pairLevel_getLast? hash rest hrodd
      _ = (a :: b :: rest).getLast?.map (fun a => hash_leaf hash [a, a]) := by
            rw [List.getLast?_cons_cons, getLast?_cons_of_ne_nil b hrne]

/-- C1 — Merkle tree round-trip: for every nonempty list of leaf commitments
and every index `i` inside it, building the tree succeeds, generating a proof
for index `i` succeeds, and verifying that proof for leaf `i` against the
built tree's root returns `true`.  Holds for every hash function, hence for
the Poseidon instance the code uses. -/
theorem merkle_roundtrip (hash : List F → F) (leaves : List F) (i : Nat)
    (hi : i < leaves.length) :
    ∃ t pf, MerkleTree.new hash leaves = some t ∧
      t.generate_proof i = some pf ∧
      t.verify_proof hash [leaves.get ⟨i, hi⟩] pf = true := by
  have hm : i < (leaves.map (fun c => hash_leaf hash [c])).length := by
    simpa using hi
  obtain ⟨r, pf, hlast, hproof, hfold⟩ :=
    roundtrip_aux hash (leaves.map (fun c => hash_leaf hash [c])) i hm
  refine ⟨⟨build_tree_levels hash leaves, r⟩, pf, ?_, ?_, ?_⟩
  · simp only [MerkleTree.new, build_tree_levels]
    rw [hlast]
    simp
  · simpa only [MerkleTree.generate_proof, build_tree_levels] using hproof
  · simp only [MerkleTree.verify_proof]
    have hstart : (leaves.map (fun c => hash_leaf hash [c])).get ⟨i, hm⟩ =
        hash_leaf hash [leaves.get ⟨i, hi⟩] := by
      simp
    rw [hstart] at hfold
    rw [hfold]
    simp

/-- C1 witness: the round-trip at the concrete three-leaf tree `[3, 5, 9]`,
index 1, with a concrete hash function. -/
theorem merkle_roundtrip_witness :
    (1 < ([3, 5, 9] : List F).length) ∧
    (∃ t pf,
      MerkleTree.new (fun l => l.foldl (fun a b => a * 37 + b + 1) 7 % p)
          [3, 5, 9] = some t ∧
      t.generate_proof 1 = some pf ∧
      t.verify_proof (fun l => l.foldl (fun a b => a * 37 + b + 1) 7 % p)
          [([3, 5, 9] : List F).get ⟨1, by decide⟩] pf = true) :=
  ⟨by decide,
   merkle_roundtrip (fun l => l.foldl (fun a b => a * 37 + b + 1) 7 % p)
     [3, 5, 9] 1 (by decide)⟩

/-- C2 — Odd-node padding rule: whenever a level has odd length, the build
loop hashes the last node with a duplicate of itself, and for a three-leaf
sequence `[c0, c1, c2]` the root equals
`hash(hash(L0, L1), hash(L2, L2))` with `Li = hash_leaf([ci])`. -/
theorem merkle_odd_padding (hash : List F → F) (l : List F) (c0 c1 c2 : F)
    (hodd : l.length % 2 = 1) :
    (pairLevel hash l).getLast? = l.getLast?.map (fun a => hash_leaf hash [a, a]) ∧
    (MerkleTree.new hash [c0, c1, c2]).map MerkleTree.root =
      some (hash [hash [hash [c0], hash [c1]], hash [hash [c2], hash [c2]]]) := by
  constructor
  · exact pairLevel_getLast? hash l hodd
  · simp [MerkleTree.new, build_tree_levels, build_levels_from, pairLevel, hash_leaf]

/-- C2 witness: the odd-level duplication at the concrete level `[4, 8, 15]`
and the three-leaf root with a concrete hash function. -/
theorem merkle_odd_padding_witness :
    (([4, 8, 15] : List F).length % 2 = 1) ∧
    ((pairLevel (fun l => l.foldl (fun a b => a * 37 + b + 1) 7 % p)
        [4, 8, 15]).getLast? =
      ([4, 8, 15] : List F).getLast?.map
        (fun a => hash_leaf (fun l => l.foldl (fun a b => a * 37 + b + 1) 7 % p) [a, a]) ∧
     (MerkleTree.new (fun l => l.foldl (fun a b => a * 37 + b + 1) 7 % p)
        [1, 2, 3]).map MerkleTree.root =
      some ((fun l => l.foldl (fun a b => a * 37 + b + 1) 7 % p)
        [(fun l => l.foldl (fun a b => a * 37 + b + 1) 7 % p)
          [(fun l => l.foldl (fun a b => a * 37 + b + 1) 7 % p) [1],
           (fun l => l.foldl (fun a b => a * 37 + b + 1) 7 % p) [2]],
         (fun l => l.foldl (fun a b => a * 37 + b + 1) 7 % p)
          [(fun l => l.foldl (fun a b => a * 37 + b + 1) 7 % p) [3],
           (fun l => l.foldl (fun a b => a * 37 + b + 1) 7 % p) [3]]])) :=
  ⟨by decide,
   merkle_odd_padding (fun l => l.foldl (fun a b => a * 37 + b + 1) 7 % p)
     [4, 8, 15] 1 2 3 (by decide)⟩

/-- C9 — Empty-tree panic: constructing a tree from an empty leaf sequence
hits the `unwrap` panic in `MerkleTree::new` (modelled as `none`), while for
every nonempty leaf sequence construction succeeds and the root is the single
node at the top level. -/
theorem merkle_empty_panics (hash : List F → F) (leaves : List F)
    (hne : leaves ≠ []) :
    MerkleTree.new hash [] = none ∧
    ∃ t, MerkleTree.new hash leaves = some t ∧
      t.levels.getLast? = some [t.root] := by
  constructor
  · simp [MerkleTree.new, build_tree_levels, build_levels_from]
  · have hi : 0 < (leaves.map (fun c => hash_leaf hash [c])).length := by
      simpa using List.length_pos.mpr hne
    obtain ⟨r, pf, hlast, _, _⟩ :=
      roundtrip_aux hash (leaves.map (fun c => hash_leaf hash [c])) 0 hi
    refine ⟨⟨build_tree_levels hash leaves, r⟩, ?_, ?_⟩
    · simp only [MerkleTree.new, build_tree_levels]
      rw [hlast]
      simp
    · simpa only [build_tree_levels] using hlast

/-- C9 witness: the empty tree panics and the singleton tree `[5]` builds,
with a concrete hash function. -/
theorem merkle_empty_panics_witness :
    (([5] : List F) ≠ []) ∧
    (MerkleTree.new (fun l => l.foldl (fun a b => a * 37 + b + 1) 7 % p) [] = none ∧
     ∃ t, MerkleTree.new (fun l => l.foldl (fun a b => a * 37 + b + 1) 7 % p)
        [5] = some t ∧ t.levels.getLast? = some [t.root]) :=
  ⟨by decide,
   merkle_empty_panics (fun l => l.foldl (fun a b => a * 37 + b + 1) 7 % p)
     [5] (by decide)⟩

/-! ## Notes (`src/wallet/src/notes.rs`) -/

/-- `Note` from `notes.rs` at the wallet's instantiation: `value`, `salt`,
`asset_id`, `maturity_date` are `u64` values and `owner` is the canonical
integer value of the owner's public spending key; every field is converted
with `Fr::from_str(&field.to_string())` inside `commit`/`nullifer`. -/
structure Note where
  value : Nat
  salt : Nat
  owner : Nat
  asset_id : Nat
  maturity_date : Nat
deriving DecidableEq, Repr

/-- `Note::commit` from `notes.rs`: Poseidon over
`[f_val, f_salt, f_owner, f_asset, f_maturity_date]`, in that order. -/
def Note.commit (hash : List F → F) (n : Note) : F :=
  hash [natToFr n.value, natToFr n.salt, natToFr n.owner,
        natToFr n.asset_id, natToFr n.maturity_date]

/-- `Note::nullifer` from `notes.rs` (source spelling): Poseidon over
`[f_salt, private_key]`. -/
def Note.nullifer (hash : List F → F) (n : Note) (private_key : F) : F :=
  hash [natToFr n.salt, private_key]

/-- Written from the spec's words (section 3, section 4.2): the commitment is the
hash of a note's five fields in the fixed order
`(value, salt, ownerPublic, assetId, maturityDate)`. -/
def commitmentSpec (hash : List F → F) (n : Note) : F :=
  hash [natToFr n.value, natToFr n.salt, natToFr n.owner,
        natToFr n.asset_id, natToFr n.maturity_date]

/-- C3 — the code's `Note::commit` hashes exactly the five note fields in the
spec's fixed order `(value, salt, ownerPublic, assetId, maturityDate)`: it
coincides with the commitment written out from the spec's words, for every
note and every hash function. -/
theorem commit_matches_spec_order (hash : List F → F) (n : Note) :
    Note.commit hash n = commitmentSpec hash n := rfl

/-! ## Keys (`src/wallet/src/keys.rs`) -/

/-- The byte string `b"spending_key"` appended to the seed before Keccak256
in `derive_spending_key`. -/
def spendingTag : List Nat := [115, 112, 101, 110, 100, 105, 110, 103, 95, 107, 101, 121]

/-- The bytes of a `[u8; 32]` in index order, as fed to `Keccak256::update`. -/
def bytesOfSeed (seed : B32) : List Nat :=
  (List.finRange 32).map (fun i => (seed i).val)

/-- `u64::from_le_bytes`: little-endian byte composition. -/
def u64FromLEBytes : List Nat → Nat
  | [] => 0
  | b :: rest => b + 256 * u64FromLEBytes rest

/-- The first eight bytes of a 32-byte digest (`&derived[..8]`). -/
def first8 (digest : B32) : List Nat :=
  (List.finRange 8).map (fun i => (digest ⟨i.val, by omega⟩).val)

/-- `ShieldedKeys::derive_spending_key` from `keys.rs`: Keccak256 over
`seed ‖ b"spending_key"`, first 8 bytes as a little-endian `u64`, embedded
into the field with `Fr::from_str`.  Keccak256 itself lives in the external
`sha3` crate and is passed in as `keccak`. -/
def derive_spending_key (keccak : List Nat → B32) (seed : B32) : F :=
  natToFr (u64FromLEBytes (first8 (keccak (bytesOfSeed seed ++ spendingTag))))

/-- `ShieldedKeys::derive_public_viewing_key` from `keys.rs`: the X25519
static secret is `StaticSecret::from(*seed)` — the seed bytes themselves,
stored verbatim (`x25519_dalek` keeps the bytes and clamps only inside the
scalar multiplication) — and the public key is the basepoint multiplication
performed by the external `x25519_dalek` crate, passed in as `x25519Pub`. -/
def derive_public_viewing_key (x25519Pub : B32 → B32) (seed : B32) : B32 × B32 :=
  (seed, x25519Pub seed)

/-- One lowercase hexadecimal digit as a character code
(`'0'..'9'` then `'a'..'f'`). -/
def hexDigitChar (d : Nat) : Nat := if d < 10 then 48 + d else 87 + d

/-- `format!("{}", fr)` on `poseidon_rs::Fr`: the ff_ce-derived `Display`
form `Fr(0x…)` — the characters `F`, `r`, `(`, `0`, `x`, the 64 lowercase
hex digits of the canonical value (most significant first, zero-padded), and
`)`, as character codes. -/
def fr_display (x : F) : List Nat :=
  70 :: 114 :: 40 :: 48 :: 120 ::
    (((List.range 64).reverse.map (fun i => hexDigitChar (x / 16 ^ i % 16))) ++ [41])

/-- A decimal digit character code. -/
def isDecimalDigit (c : Nat) : Bool := 48 ≤ c && c ≤ 57

/-- `Fr::from_str` (ff_ce-derived) on a string given as character codes:
`None` on the empty string, the zero element on `"0"`, `None` on a leading
zero or on any character that is not a decimal digit, otherwise the decimal
value reduced into the field. -/
def fr_from_str : List Nat → Option F
  | [] => none
  | c :: rest =>
      if c = 48 ∧ rest = [] then some (natToFr 0)
      else if c = 48 then none
      else if isDecimalDigit c && rest.all isDecimalDigit then
        some (natToFr ((c :: rest).foldl (fun acc d => acc * 10 + (d - 48)) 0))
      else none

/-- The stored `Fr(0x…)` Display string never parses back: its first
character `F` is not a decimal digit, so the decimal-only `Fr::from_str`
rejects it. -/
theorem fr_from_str_fr_display (x : F) : fr_from_str (fr_display x) = none := by
  simp [fr_from_str, fr_display, isDecimalDigit]

/-- `ShieldedKeys` from `keys.rs`: the two spending keys are stored as the
strings produced by `format!("{}", fr)` — the `Fr(0x…)` Display form — in
the fields named `*_hex`, modelled as character-code lists. -/
structure ShieldedKeys where
  seed : B32
  private_spending_key_hex : List Nat
  public_spending_key_hex : List Nat
  private_viewing_key : B32
  public_viewing_key : B32

/-- `ShieldedKeys::from_seed` from `keys.rs`: spending secret from
`derive_spending_key`, stored via `format!`; spending public = Poseidon of
the spending secret, stored via `format!`; viewing pair from
`derive_public_viewing_key`.  No parse is performed here, so `from_seed`
itself is total. -/
def from_seed (keccak : List Nat → B32) (hash : List F → F)
    (x25519Pub : B32 → B32) (seed : B32) : ShieldedKeys :=
  let private_spending_key := derive_spending_key keccak seed
  let private_spending_key_hex := fr_display private_spending_key
  let public_spending_key := hash [private_spending_key]
  let public_spending_key_hex := fr_display public_spending_key
  let vk := derive_public_viewing_key x25519Pub seed
  ⟨seed, private_spending_key_hex, public_spending_key_hex, vk.1, vk.2⟩

/-- `ShieldedKeys::get_private_spending_key` from `keys.rs` (lines 69-72):
`Fr::from_str` on the stored string; the `.expect` panic is modelled as
`none`. -/
def get_private_spending_key (keys : ShieldedKeys) : Option F :=
  fr_from_str keys.private_spending_key_hex

/-- `ShieldedKeys::get_public_spending_key` from `keys.rs` (lines 75-78):
`Fr::from_str` on the stored string; the `.expect` panic is modelled as
`none`. -/
def get_public_spending_key (keys : ShieldedKeys) : Option F :=
  fr_from_str keys.public_spending_key_hex

/-- `ShieldedKeys::sign_nullifier` from `keys.rs` (lines 101-107): Poseidon
over `[f_salt, private_spending_key]`, where the private spending key is
re-parsed from the stored string by `get_private_spending_key`; that parse's
panic propagates (modelled as `none`). -/
def sign_nullifier (hash : List F → F) (keys : ShieldedKeys) (salt : Nat) :
    Option F :=
  (get_private_spending_key keys).map (fun sk => hash [natToFr salt, sk])

/-- `ShieldedKeys::ecdh` from `keys.rs`: `StaticSecret::from(self.seed)`
Diffie-Hellman with the counterparty's 32-byte public key; the X25519 scalar
multiplication lives in the external `x25519_dalek` crate and is passed in as
`x25519DH`.  The source signature is `fn ecdh(&self, &[u8; 32]) -> [u8; 32]`:
it is total. -/
def ecdh (x25519DH : B32 → B32 → B32) (keys : ShieldedKeys)
    (their_pubkey : B32) : B32 :=
  x25519DH keys.seed their_pubkey

/-- C4 — the note-level nullifier (`notes.rs`) is the hash of
`(salt, spendingSecret)` in that order and depends on nothing else, as the
claim says; but the key-hierarchy entry point the claim also cites,
`ShieldedKeys::sign_nullifier`, never returns it: on every wallet produced
by `from_seed` it panics (modelled as `none`), because
`get_private_spending_key` feeds the stored `Fr(0x…)` Display string to the
decimal-only `Fr::from_str` and hits the `.expect`. -/
theorem sign_nullifier_panics (hash : List F → F) (keccak : List Nat → B32)
    (x25519Pub : B32 → B32) (seed : B32) (salt : Nat) (sk : F) (n1 n2 : Note)
    (hsalt : n1.salt = n2.salt) :
    sign_nullifier hash (from_seed keccak hash x25519Pub seed) salt = none ∧
    Note.nullifer hash n1 sk = Note.nullifer hash n2 sk ∧
    Note.nullifer hash n1 sk = hash [natToFr n1.salt, sk] := by
  refine ⟨?_, by simp [Note.nullifer, hsalt], rfl⟩
  simp [sign_nullifier, get_private_spending_key, from_seed, fr_from_str_fr_display]

/-- C4 witness: on the concrete all-sevens seed with concrete primitives the
code's `sign_nullifier` hits the parse panic, while two concrete notes with
equal salt `7` but different value, asset id and maturity date get the same
note-level nullifier under secret `11`. -/
theorem sign_nullifier_panics_witness :
    ((⟨100, 7, 1, 2, 3⟩ : Note).salt = (⟨999, 7, 1, 5, 6⟩ : Note).salt) ∧
    (sign_nullifier (fun l => l.foldl (fun a b => a * 37 + b + 1) 7 % p)
        (from_seed (fun bs => fun i => Fin.ofNat (bs.foldl (fun a b => a * 31 + b) i.val))
          (fun l => l.foldl (fun a b => a * 37 + b + 1) 7 % p)
          (fun s => fun i => s i + 1) (fun _ => 7)) 5 = none ∧
     Note.nullifer (fun l => l.foldl (fun a b => a * 37 + b + 1) 7 % p)
        ⟨100, 7, 1, 2, 3⟩ 11 =
      Note.nullifer (fun l => l.foldl (fun a b => a * 37 + b + 1) 7 % p)
        ⟨999, 7, 1, 5, 6⟩ 11 ∧
     Note.nullifer (fun l => l.foldl (fun a b => a * 37 + b + 1) 7 % p)
        ⟨100, 7, 1, 2, 3⟩ 11 =
      (fun l => l.foldl (fun a b => a * 37 + b + 1) 7 % p)
        [natToFr (⟨100, 7, 1, 2, 3⟩ : Note).salt, 11]) :=
  ⟨rfl,
   sign_nullifier_panics (fun l => l.foldl (fun a b => a * 37 + b + 1) 7 % p)
     (fun bs => fun i => Fin.ofNat (bs.foldl (fun a b => a * 31 + b) i.val))
     (fun s => fun i => s i + 1) (fun _ => 7) 5
     11 ⟨100, 7, 1, 2, 3⟩ ⟨999, 7, 1, 5, 6⟩ rfl⟩

/-- C7 — key derivation is deterministic: `from_seed` is a pure function of
the seed, so two invocations on the same seed (with the same external
primitives) produce identical spending secret, spending public, viewing
secret and viewing public keys. -/
theorem from_seed_deterministic (keccak : List Nat → B32) (hash : List F → F)
    (x25519Pub : B32 → B32) (s1 s2 : B32) (h : s1 = s2) :
    (from_seed keccak hash x25519Pub s1).private_spending_key_hex =
      (from_seed keccak hash x25519Pub s2).private_spending_key_hex ∧
    (from_seed keccak hash x25519Pub s1).public_spending_key_hex =
      (from_seed keccak hash x25519Pub s2).public_spending_key_hex ∧
    (from_seed keccak hash x25519Pub s1).private_viewing_key =
      (from_seed keccak hash x25519Pub s2).private_viewing_key ∧
    (from_seed keccak hash x25519Pub s1).public_viewing_key =
      (from_seed keccak hash x25519Pub s2).public_viewing_key := by
  subst h
  exact ⟨rfl, rfl, rfl, rfl⟩

/-- C7 witness: two invocations on the all-sevens seed with concrete
primitives agree on all four derived keys. -/
theorem from_seed_deterministic_witness :
    ((fun _ => 7 : B32) = (fun _ => 7 : B32)) ∧
    ((from_seed (fun bs => fun i => Fin.ofNat (bs.foldl (fun a b => a * 31 + b) i.val))
        (fun l => l.foldl (fun a b => a * 37 + b + 1) 7 % p)
        (fun s => fun i => s i + 1) (fun _ => 7)).private_spending_key_hex =
      (from_seed (fun bs => fun i => Fin.ofNat (bs.foldl (fun a b => a * 31 + b) i.val))
        (fun l => l.foldl (fun a b => a * 37 + b + 1) 7 % p)
        (fun s => fun i => s i + 1) (fun _ => 7)).private_spending_key_hex ∧
     (from_seed (fun bs => fun i => Fin.ofNat (bs.foldl (fun a b => a * 31 + b) i.val))
        (fun l => l.foldl (fun a b => a * 37 + b + 1) 7 % p)
        (fun s => fun i => s i + 1) (fun _ => 7)).public_spending_key_hex =
      (from_seed (fun bs => fun i => Fin.ofNat (bs.foldl (fun a b => a * 31 + b) i.val))
        (fun l => l.foldl (fun a b => a * 37 + b + 1) 7 % p)
        (fun s => fun i => s i + 1) (fun _ => 7)).public_spending_key_hex ∧
     (from_seed (fun bs => fun i => Fin.ofNat (bs.foldl (fun a b => a * 31 + b) i.val))
        (fun l => l.foldl (fun a b => a * 37 + b + 1) 7 % p)
        (fun s => fun i => s i + 1) (fun _ => 7)).private_viewing_key =
      (from_seed (fun bs => fun i => Fin.ofNat (bs.foldl (fun a b => a * 31 + b) i.val))
        (fun l => l.foldl (fun a b => a * 37 + b + 1) 7 % p)
        (fun s => fun i => s i + 1) (fun _ => 7)).private_viewing_key ∧
     (from_seed (fun bs => fun i => Fin.ofNat (bs.foldl (fun a b => a * 31 + b) i.val))
        (fun l => l.foldl (fun a b => a * 37 + b + 1) 7 % p)
        (fun s => fun i => s i + 1) (fun _ => 7)).public_viewing_key =
      (from_seed (fun bs => fun i => Fin.ofNat (bs.foldl (fun a b => a * 31 + b) i.val))
        (fun l => l.foldl (fun a b => a * 37 + b + 1) 7 % p)
        (fun s => fun i => s i + 1) (fun _ => 7)).public_viewing_key) :=
  ⟨rfl,
   from_seed_deterministic
     (fun bs => fun i => Fin.ofNat (bs.foldl (fun a b => a * 31 + b) i.val))
     (fun l => l.foldl (fun a b => a * 37 + b + 1) 7 % p)
     (fun s => fun i => s i + 1) (fun _ => 7) (fun _ => 7) rfl⟩

/-- Little-endian byte composition of in-range bytes is bounded by
`256 ^ length`. -/
theorem u64FromLEBytes_lt :
    ∀ bs : List Nat, (∀ b ∈ bs, b < 256) → u64FromLEBytes bs < 256 ^ bs.length
  | [], _ => by simp [u64FromLEBytes]
  | b :: rest, h => by
      have hb : b < 256 := h b (List.mem_cons_self b rest)
      have hr := u64FromLEBytes_lt rest (fun x hx => h x (List.mem_cons_of_mem b hx))
      simp only [u64FromLEBytes, List.length_cons, pow_succ]
      generalize 256 ^ rest.length = P at hr ⊢
      omega

/-- C10 — for every seed the derived spending secret, as an integer, is
strictly below `2 ^ 64`: `derive_spending_key` keeps only the first 8 bytes
of the Keccak256 digest, reads them as a little-endian `u64`, and embeds that
`u64` into the field, so the spending-secret keyspace has at most `2 ^ 64`
elements.  Holds for every digest function, hence for Keccak256. -/
theorem spending_key_lt_two_pow_64 (keccak : List Nat → B32) (seed : B32) :
    derive_spending_key keccak seed < 2 ^ 64 := by
  have hall : ∀ b ∈ first8 (keccak (bytesOfSeed seed ++ spendingTag)), b < 256 := by
    intro b hb
    obtain ⟨i, _, rfl⟩ := List.mem_map.mp hb
    exact (keccak (bytesOfSeed seed ++ spendingTag) ⟨i.val, by omega⟩).isLt
  have hbound := u64FromLEBytes_lt _ hall
  have hlen : (first8 (keccak (bytesOfSeed seed ++ spendingTag))).length = 8 := by
    simp [first8]
  rw [hlen] at hbound
  have h256 : (256 : Nat) ^ 8 = 2 ^ 64 := by norm_num
  calc derive_spending_key keccak seed
      ≤ u64FromLEBytes (first8 (keccak (bytesOfSeed seed ++ spendingTag))) :=
        Nat.mod_le _ _
    _ < 2 ^ 64 := h256 ▸ hbound

/-- C6 counterexample — the claim says the viewing secret is not simply the
raw seed; but on the concrete all-sevens seed (and any basepoint function)
the derived viewing secret is exactly the seed bytes. -/
theorem viewing_key_raw_seed_counterexample :
    (derive_public_viewing_key (fun s => s) (fun _ => 7)).1 = (fun _ => 7 : B32) := rfl

/-- C6 (amended) — the viewing secret is the raw seed used directly as the
X25519 static secret, with no domain tag: it does not depend on the hash at
all, while the spending secret is the only key derived through the
domain-separated Keccak256 hash (`seed ‖ b"spending_key"`) — two digest
functions agreeing on that one input give the same spending secret. -/
theorem viewing_secret_is_raw_seed (x25519Pub : B32 → B32) (seed : B32)
    (k1 k2 : List Nat → B32)
    (hagree : k1 (bytesOfSeed seed ++ spendingTag) = k2 (bytesOfSeed seed ++ spendingTag)) :
    (derive_public_viewing_key x25519Pub seed).1 = seed ∧
    derive_spending_key k1 seed = derive_spending_key k2 seed :=
  ⟨rfl, by simp [derive_spending_key, hagree]⟩

/-- C6 witness: the amended statement at the all-zero seed with concrete
digest and basepoint functions. -/
theorem viewing_secret_is_raw_seed_witness :
    ((fun bs => fun i => Fin.ofNat (bs.foldl (fun a b => a * 31 + b) i.val) : List Nat → B32)
        (bytesOfSeed (fun _ => 0) ++ spendingTag) =
      (fun bs => fun i => Fin.ofNat (bs.foldl (fun a b => a * 31 + b) i.val) : List Nat → B32)
        (bytesOfSeed (fun _ => 0) ++ spendingTag)) ∧
    ((derive_public_viewing_key (fun s => s) (fun _ => 0)).1 = (fun _ => 0 : B32) ∧
     derive_spending_key
        (fun bs => fun i => Fin.ofNat (bs.foldl (fun a b => a * 31 + b) i.val))
        (fun _ => 0) =
      derive_spending_key
        (fun bs => fun i => Fin.ofNat (bs.foldl (fun a b => a * 31 + b) i.val))
        (fun _ => 0)) :=
  ⟨rfl,
   viewing_secret_is_raw_seed (fun s => s) (fun _ => 0)
     (fun bs => fun i => Fin.ofNat (bs.foldl (fun a b => a * 31 + b) i.val))
     (fun bs => fun i => Fin.ofNat (bs.foldl (fun a b => a * 31 + b) i.val)) rfl⟩

/-! ## Key-agreement error behaviour (claim C8) -/

/-- The error taxonomy entry the spec (sections 4.1 and 7) assigns to malformed
key bytes. -/
inductive KeyError
  | KeyFormatError
deriving DecidableEq, Repr

/-- `ecdh` reified into the error monad of the signature the spec claims:
the source function (`keys.rs` lines 110-115) returns `[u8; 32]` directly
with no `Result`, so every input maps to `Except.ok`. -/
def ecdhChecked (x25519DH : B32 → B32 → B32) (keys : ShieldedKeys)
    (pk : B32) : Except KeyError B32 :=
  Except.ok (ecdh x25519DH keys pk)

/-- Modelled from the spec: section 4.1's `agree` over raw counterparty bytes,
failing with `KeyFormatError` when the bytes are malformed (wrong length —
the spec's other malformation, an invalid curve point, has no referent for
X25519, where every 32-byte string is accepted). -/
def agreeSpec (x25519DH : B32 → B32 → B32) (keys : ShieldedKeys)
    (pkBytes : List Nat) : Except KeyError B32 :=
  if h : pkBytes.length = 32 then
    Except.ok (ecdh x25519DH keys
      (fun i => ⟨(pkBytes.get ⟨i.val, by have := i.isLt; omega⟩) % 256,
                 Nat.mod_lt _ (by norm_num)⟩))
  else Except.error KeyError.KeyFormatError

/-- C8 counterexample — both clauses of the claim fail at concrete inputs:
the spec's `agree` has a reachable `KeyFormatError` (here: 31 bytes) that the
code's `ecdh` cannot reproduce on any input — its checked form returns `ok`
even on the all-zero public key — and the other key-hierarchy operations are
not total on well-formed input either: `get_public_spending_key` on a
concrete `from_seed` wallet hits the `Fr::from_str` parse panic (`none`). -/
theorem ecdh_never_fails_counterexample :
    agreeSpec (fun a _ => a) ⟨(fun _ => 0), [], [], (fun _ => 0), (fun _ => 0)⟩
        (List.replicate 31 0) = Except.error KeyError.KeyFormatError ∧
    ecdhChecked (fun a _ => a) ⟨(fun _ => 0), [], [], (fun _ => 0), (fun _ => 0)⟩
        (fun _ => 0) = Except.ok (fun _ => 0) ∧
    get_public_spending_key
      (from_seed (fun bs => fun i => Fin.ofNat (bs.foldl (fun a b => a * 31 + b) i.val))
        (fun l => l.foldl (fun a b => a * 37 + b + 1) 7 % p)
        (fun s => fun i => s i + 1) (fun _ => 0)) = none := by
  refine ⟨?_, rfl, ?_⟩
  · simp [agreeSpec]
  · simp [get_public_spending_key, from_seed, fr_from_str_fr_display]

/-- C8 (amended) — the key-agreement operation is total: the public-key
parameter is a fixed 32-byte array, so wrong-length bytes are excluded before
the call and X25519 performs no point validation; `ecdh` never returns an
error and the spec-level `agree` succeeds on every length-32 byte string.
But not every other key-hierarchy operation on well-formed input is total:
the operations that re-parse the stored `Fr(0x…)` key strings —
`get_private_spending_key` and `get_public_spending_key`, hence
`sign_nullifier` — panic on every wallet `from_seed` produces. -/
theorem ecdh_total (x25519DH : B32 → B32 → B32) (keys : ShieldedKeys)
    (pk : B32) (bs : List Nat) (h : bs.length = 32)
    (keccak : List Nat → B32) (hash : List F → F) (x25519Pub : B32 → B32)
    (seed : B32) :
    ecdhChecked x25519DH keys pk = Except.ok (ecdh x25519DH keys pk) ∧
    (∃ out, agreeSpec x25519DH keys bs = Except.ok out) ∧
    get_private_spending_key (from_seed keccak hash x25519Pub seed) = none ∧
    get_public_spending_key (from_seed keccak hash x25519Pub seed) = none := by
  refine ⟨rfl, ?_, ?_, ?_⟩
  · simp [agreeSpec, h]
  · simp [get_private_spending_key, from_seed, fr_from_str_fr_display]
  · simp [get_public_spending_key, from_seed, fr_from_str_fr_display]

/-- C8 witness: the amended statement at concrete inputs — the all-zero
32-byte public key and byte list, and a concrete `from_seed` wallet. -/
theorem ecdh_total_witness :
    ((List.replicate 32 0 : List Nat).length = 32) ∧
    (ecdhChecked (fun a _ => a) ⟨(fun _ => 1), [], [], (fun _ => 1), (fun _ => 1)⟩
        (fun _ => 2) =
      Except.ok (ecdh (fun a _ => a)
        ⟨(fun _ => 1), [], [], (fun _ => 1), (fun _ => 1)⟩ (fun _ => 2)) ∧
     (∃ out, agreeSpec (fun a _ => a)
        ⟨(fun _ => 1), [], [], (fun _ => 1), (fun _ => 1)⟩
        (List.replicate 32 0) = Except.ok out) ∧
     get_private_spending_key
       (from_seed (fun bs => fun i => Fin.ofNat (bs.foldl (fun a b => a * 31 + b) i.val))
         (fun l => l.foldl (fun a b => a * 37 + b + 1) 7 % p)
         (fun s => fun i => s i + 1) (fun _ => 1)) = none ∧
     get_public_spending_key
       (from_seed (fun bs => fun i => Fin.ofNat (bs.foldl (fun a b => a * 31 + b) i.val))
         (fun l => l.foldl (fun a b => a * 37 + b + 1) 7 % p)
         (fun s => fun i => s i + 1) (fun _ => 1)) = none) :=
  ⟨by decide,
   ecdh_total (fun a _ => a) ⟨(fun _ => 1), [], [], (fun _ => 1), (fun _ => 1)⟩
     (fun _ => 2) (List.replicate 32 0) (by decide)
     (fun bs => fun i => Fin.ofNat (bs.foldl (fun a b => a * 31 + b) i.val))
     (fun l => l.foldl (fun a b => a * 37 + b + 1) 7 % p)
     (fun s => fun i => s i + 1) (fun _ => 1)⟩

/-! ## JoinSplit value conservation (claim C5) -/

/-- The error taxonomy of the witness builder (spec section 7). -/
inductive JoinSplitError
  | ValueConservationError
  | CommitmentNotFoundError
deriving DecidableEq, Repr

/-- Modelled from the spec: `build_joinsplit_witness` is imported by
`main.rs` from the prover module but its definition is not under `src/`;
per the spec (section 4.4 step 4) the builder asserts
`sum(inputs.value) == sum(outputs.value)` and signals
`ValueConservationError` on violation, never silently correcting.  This is
that conservation gate over the four note values. -/
def joinsplit_conservation_check (input1 input2 output1 output2 : Nat) :
    Except JoinSplitError Unit :=
  if input1 + input2 = output1 + output2 then Except.ok ()
  else Except.error JoinSplitError.ValueConservationError

/-- The four note values assembled by the `buy` command. -/
structure BuyValues where
  inputValue : Nat
  dummyValue : Nat
  buyerValue : Nat
  changeValue : Nat
deriving DecidableEq, Repr

/-- The value flow of the `buy` command (`main.rs` lines 307-360): the
request is rejected when `buy_value >= source.value`; otherwise the consumed
input note carries `source.value`, the dummy input carries 0, the buyer
output carries `buy_value` and the change output
`source.value - buy_value`. -/
def buyFlowValues (sourceValue buyValue : Nat) : Option BuyValues :=
  if buyValue ≥ sourceValue then none
  else some ⟨sourceValue, 0, buyValue, sourceValue - buyValue⟩

/-- C5 — value conservation: the witness-building gate accepts exactly the
balanced value vectors and reports `ValueConservationError` otherwise, and
the `buy` flow under its accepted precondition `buy_value < source.value`
produces outputs whose values sum to the consumed input value with no `u64`
overflow. -/
theorem joinsplit_value_conservation (i1 i2 o1 o2 s b : Nat)
    (hs : s < 2 ^ 64) (hb : b < s) :
    (joinsplit_conservation_check i1 i2 o1 o2 = Except.ok () ↔
      i1 + i2 = o1 + o2) ∧
    (i1 + i2 ≠ o1 + o2 →
      joinsplit_conservation_check i1 i2 o1 o2 =
        Except.error JoinSplitError.ValueConservationError) ∧
    ∃ v, buyFlowValues s b = some v ∧
      v.inputValue + v.dummyValue = v.buyerValue + v.changeValue ∧
      v.buyerValue + v.changeValue < 2 ^ 64 ∧
      joinsplit_conservation_check v.inputValue v.dummyValue
        v.buyerValue v.changeValue = Except.ok () := by
  refine ⟨?_, ?_, ⟨s, 0, b, s - b⟩, ?_, ?_, ?_, ?_⟩
  · simp only [joinsplit_conservation_check]
    split <;> simp_all
  · intro hne
    simp [joinsplit_conservation_check, hne]
  · simp only [buyFlowValues]
    split
    · omega
    · rfl
  · simp only
    omega
  · simp only
    omega
  · have hc : s + 0 = b + (s - b) := by omega
    simp [joinsplit_conservation_check, hc]

/-- C5 witness: source value 100, buy 60 — the flow yields outputs 60 and 40,
balanced against inputs 100 and 0; the check accepts 100+0 = 60+40. -/
theorem joinsplit_value_conservation_witness :
    ((100 : Nat) < 2 ^ 64 ∧ (60 : Nat) < 100) ∧
    ((joinsplit_conservation_check 100 0 60 40 = Except.ok () ↔
       100 + 0 = 60 + 40) ∧
     (100 + 0 ≠ 60 + 40 →
       joinsplit_conservation_check 100 0 60 40 =
         Except.error JoinSplitError.ValueConservationError) ∧
     ∃ v, buyFlowValues 100 60 = some v ∧
       v.inputValue + v.dummyValue = v.buyerValue + v.changeValue ∧
       v.buyerValue + v.changeValue < 2 ^ 64 ∧
       joinsplit_conservation_check v.inputValue v.dummyValue
         v.buyerValue v.changeValue = Except.ok ()) :=
  ⟨⟨by norm_num, by norm_num⟩,
   joinsplit_value_conservation 100 0 60 40 100 60 (by norm_num) (by norm_num)⟩

end PrivateBonds
